import Mathlib

/-!
# Verification of the vision-proxy request-transformation pipeline

Shallow embedding of the repository's core modules:

* `message_utils.py` — `format_ocr_results`, `rebuild_messages`, `has_images`
* `ocr.py`           — `extract_images`, `call_ocr`, `process_images`
* `proxy.py`         — header handling of `passthrough`
* `main.py`          — `parse_upstream_url` and upstream-URL construction

Python dicts are modelled as association lists, Python's dynamic values by
small inductive types.  Code that can raise an exception is modelled with
`Option`/`Except`: a `none`/`.error` result is the exception escaping the
function.
-/

namespace VisionProxy

/-- Python `s.lower()` (the header names here are ASCII). -/
def strToLower (s : String) : String := ⟨s.data.map Char.toLower⟩

/-- Python `s.startswith(pre)`. -/
def strStartsWith (s pre : String) : Bool := pre.data.isPrefixOf s.data

/-- Python `s.endswith(suf)`. -/
def strEndsWith (s suf : String) : Bool := suf.data.isSuffixOf s.data

/-- Python `s.rstrip("/")`. -/
def rstripSlash (s : String) : String :=
  ⟨(s.data.reverse.dropWhile (fun c => c == '/')).reverse⟩

/-- A JSON-like field value as the pipeline sees it inside a content-item
dict: either a string or some other JSON value, opaque to the pipeline
(objects such as the `image_url` payload, numbers, null, ...). -/
inductive JVal where
  | str : String → JVal
  | blob : Nat → JVal
deriving DecidableEq, Repr

/-- One element of a list-typed `content` field.  Python imposes no type
here: an element is either a dict (modelled by its association list of
fields) or some non-dict value such as a bare string. -/
inductive CItem where
  | dict : List (String × JVal) → CItem
  | nondict : String → CItem
deriving DecidableEq, Repr

/-- Python `d.get(k)` on a dict: the value of the first matching key, if
any. -/
def dget (fields : List (String × JVal)) (k : String) : Option JVal :=
  (fields.find? (fun p => p.1 == k)).map Prod.snd

/-- A message's `content` value: a string, a list of content items, or any
other JSON value (e.g. `null`), which the pipeline never touches. -/
inductive Content where
  | str : String → Content
  | list : List CItem → Content
  | blob : Nat → Content
deriving DecidableEq, Repr

/-- A chat message.  `role` and `content` are `message.get("role")` and
`message.get("content")` (`none` = key absent); `extra` stands for all
other fields of the dict, which the pipeline copies through untouched. -/
structure Message where
  role : Option String
  content : Option Content
  extra : List (String × JVal)
deriving DecidableEq, Repr

/-- The test `isinstance(item, dict) and item.get("type") == "image_url"`
(`ocr.py`, `extract_images` / `has_images`). -/
def isImageItem : CItem → Bool
  | .dict fs => dget fs "type" == some (.str "image_url")
  | .nondict _ => false

/-- Inner loop of `extract_images` over one message's list content:
`j` is the running content index. -/
def extractItems (i : Nat) (j : Nat) : List CItem → List (Nat × Nat × CItem)
  | [] => []
  | it :: rest =>
    (if isImageItem it then [(i, j, it)] else []) ++ extractItems i (j + 1) rest

/-- Outer loop of `extract_images`: `i` is the running message index. -/
def extractGo (i : Nat) : List Message → List (Nat × Nat × CItem)
  | [] => []
  | m :: rest =>
    (match m.content with
     | some (.list items) => extractItems i 0 items
     | _ => []) ++ extractGo (i + 1) rest

/-- From `ocr.py`, `extract_images`: all `image_url` dict items found in
list-typed content, with their `(message_index, content_index)`
coordinates, in scan order. -/
def extract_images (messages : List Message) : List (Nat × Nat × CItem) :=
  extractGo 0 messages

/-- From `message_utils.py`, `has_images`. -/
def has_images (messages : List Message) : Bool :=
  messages.any (fun m =>
    match m.content with
    | some (.list items) => items.any isImageItem
    | _ => false)

/-- From `message_utils.py`, `format_ocr_results`. -/
def format_ocr_results (ocr_results : List (Nat × String)) : String :=
  if ocr_results.isEmpty then ""
  else
    String.intercalate "\n"
      (ocr_results.map (fun p => "图片" ++ toString p.1 ++ "内容：(" ++ p.2 ++ ")"))

/-- The coordinate set `images_to_remove` built at the top of
`rebuild_messages` (set membership modelled by list membership). -/
def coordsOf (images : List (Nat × Nat × CItem)) : List (Nat × Nat) :=
  images.map (fun t => (t.1, t.2.1))

/-- The filtering loop of `rebuild_messages` for the message at index `i`:
keep exactly the items whose coordinate is not in the removal set.  `j` is
the running content index. -/
def filterContent (i : Nat) (rm : List (Nat × Nat)) (j : Nat) :
    List CItem → List CItem
  | [] => []
  | it :: rest =>
    (if (i, j) ∈ rm then [] else [it]) ++ filterContent i rm (j + 1) rest

/-- The value `new_content[0].get("text", "")` assigned as the collapsed
content of a single remaining `text` item. -/
def textValue (fs : List (String × JVal)) : Content :=
  match dget fs "text" with
  | some (.str s) => .str s
  | some (.blob n) => .blob n
  | none => .str ""

/-- Content-shape normalization of `rebuild_messages` (the
`if len(new_content) == 0 / elif len(new_content) == 1 ... / else`
chain).  Returns `none` when the Python code raises: with exactly one
remaining item that is not a dict, `new_content[0].get("type")` raises
`AttributeError`. -/
def normalizeContent : List CItem → Option Content
  | [] => some (.str "")
  | [it] =>
    match it with
    | .nondict _ => none
    | .dict fs =>
      if dget fs "type" == some (.str "text") then some (textValue fs)
      else some (.list [.dict fs])
  | it :: it2 :: rest => some (.list (it :: it2 :: rest))

/-- The per-message body of the first loop of `rebuild_messages`:
list-typed content is filtered and normalized, everything else is left
untouched. -/
def rebuildMsg (i : Nat) (rm : List (Nat × Nat)) (m : Message) :
    Option Message :=
  match m.content with
  | some (.list items) =>
    (normalizeContent (filterContent i rm 0 items)).map
      (fun c => { m with content := some c })
  | _ => some m

/-- The first loop of `rebuild_messages` over all messages; `none`
propagates the exception of `normalizeContent`. -/
def rebuildPhase1 (rm : List (Nat × Nat)) (i : Nat) :
    List Message → Option (List Message)
  | [] => some []
  | m :: rest =>
    match rebuildMsg i rm m with
    | none => none
    | some m' => (rebuildPhase1 rm (i + 1) rest).map (fun l => m' :: l)

/-- The backwards scan for the last message with `role == "user"`. -/
def lastUserIdx (messages : List Message) : Option Nat :=
  (List.range messages.length).reverse.find?
    (fun i => (messages.get? i).any (fun m => m.role == some "user"))

/-- The text item `{"type": "text", "text": "\n\n" + ocr_text}` appended
to list content. -/
def ocrTextItem (ocr_text : String) : CItem :=
  .dict [("type", .str "text"), ("text", .str ("\n\n" ++ ocr_text))]

/-- The new content given to the last user message, from its current
content `message.get("content", "")` (missing key defaults to `""`).
Content that is neither a string nor a list is left as it is. -/
def appendToContent (ocr_text : String) (cur : Option Content) : Option Content :=
  match cur.getD (.str "") with
  | .str s =>
    if s == "" then some (.str ocr_text)
    else some (.str (s ++ "\n\n" ++ ocr_text))
  | .list l => some (.list (l ++ [ocrTextItem ocr_text]))
  | .blob n => some (.blob n)

/-- The OCR-append step of `rebuild_messages` (its `if ocr_text:` block):
locate the last user message and update its content in place
(`new_messages[last_user_idx]["content"] = ...`), or append a fresh user
message when none exists.  The inner `none` branch is unreachable:
`lastUserIdx` only returns valid indices. -/
def appendOcr (ocr_text : String) (messages : List Message) : List Message :=
  if ocr_text == "" then messages
  else
    match lastUserIdx messages with
    | some i =>
      match messages.get? i with
      | some m => messages.set i { m with content := appendToContent ocr_text m.content }
      | none => messages
    | none => messages ++ [⟨some "user", some (.str ocr_text), []⟩]

/-- From `message_utils.py`, `rebuild_messages`: filter-and-normalize, then
append the OCR text.  `none` models the function raising. -/
def rebuild_messages (messages : List Message)
    (images : List (Nat × Nat × CItem)) (ocr_text : String) :
    Option (List Message) :=
  (rebuildPhase1 (coordsOf images) 0 messages).map (appendOcr ocr_text)

/-! ## OCR client (`ocr.py` `call_ocr`) -/

mutual

/-- A decoded JSON value, as returned by `response.json()`.  Arrays and
objects are given by the mutually defined list types `JsonArr` and
`JsonObj`. -/
inductive JsonV where
  | null : JsonV
  | str : String → JsonV
  | num : Int → JsonV
  | arr : JsonArr → JsonV
  | obj : JsonObj → JsonV
deriving DecidableEq, Repr

/-- A JSON array: a list of JSON values. -/
inductive JsonArr where
  | nil : JsonArr
  | cons : JsonV → JsonArr → JsonArr
deriving DecidableEq, Repr

/-- A JSON object: an ordered list of key/value pairs. -/
inductive JsonObj where
  | nil : JsonObj
  | cons : String → JsonV → JsonObj → JsonObj
deriving DecidableEq, Repr

end

/-- The Python exceptions subscription can raise. -/
inductive PyExc where
  | keyError
  | indexError
  | typeError
deriving DecidableEq, Repr

/-- First value bound to a key in a JSON object. -/
def jlookup (fields : JsonObj) (k : String) : Option JsonV :=
  match fields with
  | .nil => none
  | .cons k' v rest => if k' == k then some v else jlookup rest k

/-- Python `v[k]` with a string key: `KeyError` on a dict without the key,
`TypeError` on any non-dict. -/
def pyIndexStr (v : JsonV) (k : String) : Except PyExc JsonV :=
  match v with
  | .obj fs =>
    match jlookup fs k with
    | some x => .ok x
    | none => .error .keyError
  | _ => .error .typeError

/-- Python `v[0]`: `IndexError` on an empty list or string, the head of a
non-empty list, the first character of a non-empty string, `KeyError` on a
JSON object (whose keys are strings, never `0`), `TypeError` otherwise. -/
def pyIndexZero (v : JsonV) : Except PyExc JsonV :=
  match v with
  | .arr xs =>
    match xs with
    | .cons x _ => .ok x
    | .nil => .error .indexError
  | .obj _ => .error .keyError
  | .str s =>
    match s.data with
    | [] => .error .indexError
    | c :: _ => .ok (.str (String.mk [c]))
  | _ => .error .typeError

/-- The extraction `result["choices"][0]["message"]["content"]`. -/
def extractContent (result : JsonV) : Except PyExc JsonV :=
  pyIndexStr result "choices" >>= pyIndexZero >>=
    (fun v => pyIndexStr v "message") >>= (fun v => pyIndexStr v "content")

/-- From `ocr.py`, `OCRError`: the message and the image ordinal it carries. -/
structure OCRErrorE where
  message : String
  image_index : Nat
deriving DecidableEq, Repr

/-- The configured OCR call timeout (`config.py` default), only used in
the timeout error text. -/
def OCR_TIMEOUT : Nat := 60

/-- What one OCR HTTP exchange can look like from `call_ocr`'s side: a
response (status code, raw text, decoded JSON body), a timeout
(`httpx.TimeoutException`), or a transport error (`httpx.RequestError`). -/
inductive HttpOutcome where
  | response : Nat → String → JsonV → HttpOutcome
  | timeout : HttpOutcome
  | transportError : String → HttpOutcome
deriving DecidableEq, Repr

/-- Outcome of one `call_ocr` invocation: a returned value, a raised
`OCRError`, or some other uncaught exception (e.g. the `TypeError` a
wrongly-typed body produces, which `except (KeyError, IndexError)` does
not catch).  Exception reprs inside messages are abbreviated to the
exception's name. -/
inductive CallResult where
  | ok : JsonV → CallResult
  | ocrError : OCRErrorE → CallResult
  | otherError : PyExc → CallResult
deriving DecidableEq, Repr

/-- Name of a `PyExc`, standing for `str(e)` in error messages. -/
def pyExcName : PyExc → String
  | .keyError => "KeyError"
  | .indexError => "IndexError"
  | .typeError => "TypeError"

/-- From `ocr.py`, `call_ocr`, as a function of the HTTP exchange it observes
and the `image_index` it was given. -/
def call_ocr (outcome : HttpOutcome) (image_index : Nat) : CallResult :=
  match outcome with
  | .response status text body =>
    if status ≠ 200 then
      .ocrError ⟨"OCR API returned status " ++ toString status ++ ": " ++ text,
                 image_index⟩
    else
      match extractContent body with
      | .ok v => .ok v
      | .error .keyError =>
        .ocrError ⟨"Invalid OCR response format: " ++ pyExcName .keyError, image_index⟩
      | .error .indexError =>
        .ocrError ⟨"Invalid OCR response format: " ++ pyExcName .indexError, image_index⟩
      | .error .typeError => .otherError .typeError
  | .timeout =>
    .ocrError ⟨"OCR request timed out after " ++ toString OCR_TIMEOUT ++ "s",
               image_index⟩
  | .transportError m =>
    .ocrError ⟨"OCR request failed: " ++ m, image_index⟩

/-! ## OCR orchestrator (`ocr.py` `process_images`, concurrent mode) -/

/-- One settled entry of `asyncio.gather(..., return_exceptions=True)`:
the task's returned value, the `OCRError` it raised, or some other
exception. -/
inductive Settled where
  | value : JsonV → Settled
  | exc : OCRErrorE → Settled
  | excOther : PyExc → Settled
deriving DecidableEq, Repr

/-- How a finished `call_ocr` task settles. -/
def toSettled : CallResult → Settled
  | .ok v => .value v
  | .ocrError e => .exc e
  | .otherError p => .excOther p

/-- The settled results of the `n` tasks `call_ocr(img[2], idx + 1)`, in
task order, given the HTTP exchange `env idx` each call observes. -/
def settleTasks (env : Nat → HttpOutcome) (n : Nat) : List Settled :=
  (List.range n).map (fun i => toSettled (call_ocr (env i) (i + 1)))

/-- A completion log: which task settled with which entry, in completion
order.  `asyncio.gather` stores each task's entry in the task's own slot,
so its output is the entries read back in task order, whatever the
completion order was.  The default is never exercised when the log has an
event for every task. -/
def gatherResults (n : Nat) (events : List (Nat × Settled)) : List Settled :=
  (List.range n).map (fun i =>
    ((events.find? (fun p => p.1 == i)).map Prod.snd).getD (.value .null))

/-- The result-collection loop of `process_images` (parallel branch):
scan the settled entries in task order; re-raise the first `OCRError`,
wrap the first other exception with the 1-based ordinal, collect values
as `(ordinal, value)` pairs. -/
def collectResults (idx : Nat) : List Settled → Except OCRErrorE (List (Nat × JsonV))
  | [] => .ok []
  | s :: rest =>
    match s with
    | .exc e => .error e
    | .excOther p =>
      .error ⟨"OCR failed for image " ++ toString (idx + 1) ++ ": " ++ pyExcName p,
              idx + 1⟩
    | .value v => (collectResults (idx + 1) rest).map (fun l => (idx + 1, v) :: l)

/-- From `ocr.py`, `process_images` with `config.OCR_PARALLEL` set, as a
function of the images and the settled gather output. -/
def process_images_parallel (images : List (Nat × Nat × CItem))
    (settled : List Settled) : Except OCRErrorE (List (Nat × JsonV)) :=
  if images.isEmpty then .ok []
  else collectResults 0 settled

instance {ε α : Type} [DecidableEq ε] [DecidableEq α] :
    DecidableEq (Except ε α) := fun a b =>
  match a, b with
  | .error e₁, .error e₂ =>
    if h : e₁ = e₂ then .isTrue (by rw [h]) else .isFalse (by simp [h])
  | .ok x, .ok y =>
    if h : x = y then .isTrue (by rw [h]) else .isFalse (by simp [h])
  | .error _, .ok _ => .isFalse (fun h => Except.noConfusion h)
  | .ok _, .error _ => .isFalse (fun h => Except.noConfusion h)

/-! ## Transparent proxy headers (`proxy.py` `passthrough`) -/

/-- Python `d[k] = v` on a dict modelled as an association list with
unique keys: overwrite the binding if the key exists, else append. -/
def dictInsert (d : List (String × String)) (k v : String) :
    List (String × String) :=
  if d.any (fun p => p.1 == k) then
    d.map (fun p => if p.1 == k then (k, v) else p)
  else d ++ [(k, v)]

/-- The header-building loops of `passthrough`: start from an empty dict
and insert every header whose (lowercased) name is not skipped. -/
def buildHeadersSkip (skip : String → Bool) (hs : List (String × String)) :
    List (String × String) :=
  hs.foldl (fun d p => if skip p.1 then d else dictInsert d p.1 p.2) []

/-- Forwarded request headers: everything except `host` and
`content-length` (case-insensitive). -/
def buildForwardHeaders (inbound : List (String × String)) :
    List (String × String) :=
  buildHeadersSkip
    (fun k => strToLower k == "host" || strToLower k == "content-length") inbound

/-- The hop-by-hop header set of `passthrough`. -/
def hopByHop : List String :=
  ["connection", "keep-alive", "transfer-encoding", "te", "trailers", "upgrade"]

/-- Relayed response headers: everything except the hop-by-hop set. -/
def buildRelayHeaders (upstream : List (String × String)) :
    List (String × String) :=
  buildHeadersSkip (fun k => hopByHop.contains (strToLower k)) upstream

/-- An upstream HTTP response as `passthrough` sees it (non-streaming
case): status, headers, body bytes. -/
structure UpResponse where
  status : Nat
  headers : List (String × String)
  content : List Nat
deriving DecidableEq, Repr

/-- The `Response(...)` built by `passthrough` for a non-streaming
upstream response: same status and body, hop-by-hop headers removed. -/
def passthroughResponse (up : UpResponse) : UpResponse :=
  ⟨up.status, buildRelayHeaders up.headers, up.content⟩

/-! ## URL handling (`main.py`, `proxy.py`) -/

/-- From `main.py`, `parse_upstream_url`. -/
def parse_upstream_url (path : String) : Option String :=
  let p := if strStartsWith path "/" then ⟨path.data.drop 1⟩ else path
  if strStartsWith p "http://" || strStartsWith p "https://" then some p
  else none

/-- From `main.py`, `is_chat_completions_path`. -/
def is_chat_completions_path (url : String) : Bool :=
  strEndsWith (rstripSlash url) "v1/chat/completions"

/-- The URL a chat-completions request is forwarded to by
`proxy_handler` / `handle_chat_completions` / `forward_chat_request`:
only `parse_upstream_url(path)` is used.  The `full_path` value computed
at the top of `proxy_handler` (path plus `"?" + query`) is assigned and
never read, so the query string does not reach the upstream URL on this
branch. -/
def chatUpstreamUrl (path : String) (query : String) : Option String :=
  parse_upstream_url path

/-- The effective URL of the request `passthrough` issues: httpx appends
the `params=request.query_params` to the target URL. -/
def passthroughRequestUrl (upstream_url : String) (query : String) : String :=
  if query == "" then upstream_url else upstream_url ++ "?" ++ query

/-! ## Auxiliary predicates and concrete inputs used in the statements -/

/-- A content item that is a Python dict. -/
def itemIsDict : CItem → Bool
  | .dict _ => true
  | .nondict _ => false

/-- Every element of every list-typed content is a dict — the inputs on
which `rebuild_messages` cannot raise. -/
def wellFormed (messages : List Message) : Bool :=
  messages.all (fun m =>
    match m.content with
    | some (.list items) => items.all itemIsDict
    | _ => true)

/-- Message content that is not list-typed. -/
def nonListContent (m : Message) : Bool :=
  match m.content with
  | some (.list _) => false
  | _ => true

/-- A settled gather entry that holds an exception. -/
def settledFails : Settled → Bool
  | .value _ => false
  | .exc _ => true
  | .excOther _ => true

/-- The error the collection loop raises when the entry at 0-based
position `idx` is the first exception: an `OCRError` is re-raised as it
is, anything else is wrapped with the 1-based ordinal.  (The `.value`
case is never used.) -/
def settleError (idx : Nat) : Settled → OCRErrorE
  | .exc e => e
  | .excOther p =>
    ⟨"OCR failed for image " ++ toString (idx + 1) ++ ": " ++ pyExcName p, idx + 1⟩
  | .value _ => ⟨"", 0⟩

/-- A typical `image_url` content item. -/
def imgItem : CItem := .dict [("type", .str "image_url"), ("image_url", .blob 0)]

/-- A `text` content item with the given text. -/
def textItem (s : String) : CItem := .dict [("type", .str "text"), ("text", .str s)]

/-- A well-formed OCR response body:
`{"choices": [{"message": {"content": "desc"}}]}`. -/
def okBody : JsonV :=
  .obj (.cons "choices"
    (.arr (.cons
      (.obj (.cons "message" (.obj (.cons "content" (.str "desc") .nil)) .nil))
      .nil))
    .nil)

/-- Per-call HTTP outcomes where calls 1 and 3 fail and call 2 succeeds
(0-based task indices). -/
def env3 : Nat → HttpOutcome
  | 0 => .response 500 "boom" .null
  | 1 => .response 200 "" okBody
  | _ => .timeout

/-- Three extracted images (the items themselves are irrelevant to the
orchestrator). -/
def imgs3 : List (Nat × Nat × CItem) := [(0, 0, imgItem), (0, 1, imgItem), (0, 2, imgItem)]

/-- A well-formed two-item multimodal message list used as a concrete
round-trip input. -/
def msgsW : List Message :=
  [⟨some "user", some (.list [textItem "hi", imgItem]), []⟩,
   ⟨some "assistant", some (.str "ok"), []⟩]

/-! ## Theorems -/

/-- C10: `rebuild_messages` is partial at its public interface: when a
message's list-typed content is left with exactly one non-dict element
(here a bare string) after the extracted image coordinates are filtered
out, the `new_content[0].get("type")` call raises instead of returning a
rebuilt list, so the embedded error branch (`none`) is reachable. -/
theorem rebuild_messages_partial_on_nondict :
    rebuild_messages [⟨some "user", some (.list [imgItem, .nondict "y"]), []⟩]
      (extract_images [⟨some "user", some (.list [imgItem, .nondict "y"]), []⟩]) ""
      = none := by decide

/-- C9 (code bug): on the chat-completions branch the query string is
dropped — `proxy_handler` computes `full_path` (path plus query) but
never uses it, and forwards to `parse_upstream_url(path)` alone — while
the passthrough branch does append the query string to the upstream
URL. -/
theorem chat_query_string_dropped :
    chatUpstreamUrl "http://up/v1/chat/completions" "foo=bar"
      = some "http://up/v1/chat/completions"
    ∧ is_chat_completions_path "http://up/v1/chat/completions" = true
    ∧ passthroughRequestUrl "http://up/models" "foo=bar" = "http://up/models?foo=bar" :=
  ⟨by decide, by decide, by decide⟩

/-- C5 (counterexample): a 2xx status other than 200 (here 201) with a
perfectly well-formed body still makes `call_ocr` fail — the code checks
`status_code != 200`, not "non-2xx" — contradicting the claim that any
2xx status with a well-formed body yields the description string. -/
theorem call_ocr_fails_on_2xx_non_200 :
    call_ocr (.response 201 "created" okBody) 1
      = .ocrError ⟨"OCR API returned status 201: created", 1⟩ := by decide

/-- C5 (amended): `call_ocr` fails with an `OCRError` carrying the given
ordinal iff the exchange was a timeout, a transport error, a response
with status ≠ 200 (not: non-2xx; the reason then is exactly the status
followed by the body text), or a 200 response whose body fails the
`choices[0].message.content` extraction with a `KeyError`/`IndexError`;
on a 200 response whose extraction succeeds it returns the extracted
value. -/
theorem call_ocr_failure_characterization (outcome : HttpOutcome) (idx : Nat) :
    ((∃ e, call_ocr outcome idx = .ocrError e) ↔
      (outcome = .timeout ∨
       (∃ m, outcome = .transportError m) ∨
       (∃ st text body, outcome = .response st text body ∧ st ≠ 200) ∨
       (∃ text body, outcome = .response 200 text body ∧
          (extractContent body = .error .keyError ∨
           extractContent body = .error .indexError))))
    ∧ (∀ e, call_ocr outcome idx = .ocrError e → e.image_index = idx)
    ∧ (∀ st text body, outcome = .response st text body → st ≠ 200 →
        call_ocr outcome idx =
          .ocrError ⟨"OCR API returned status " ++ toString st ++ ": " ++ text, idx⟩)
    ∧ (∀ text body v, outcome = .response 200 text body →
        extractContent body = .ok v → call_ocr outcome idx = .ok v) := by
  refine ⟨?_, ?_, ?_, ?_⟩
  · constructor
    · rintro ⟨e, he⟩
      match outcome with
      | .timeout => exact Or.inl rfl
      | .transportError m => exact Or.inr (Or.inl ⟨m, rfl⟩)
      | .response st text body =>
        by_cases hst : st = 200
        · subst hst
          refine Or.inr (Or.inr (Or.inr ⟨text, body, rfl, ?_⟩))
          simp only [call_ocr, if_neg (by omega : ¬(200 : Nat) ≠ 200)] at he
          cases hex : extractContent body with
          | ok v => rw [hex] at he; exact absurd he (by simp)
          | error p =>
            cases p with
            | keyError => exact Or.inl rfl
            | indexError => exact Or.inr rfl
            | typeError => rw [hex] at he; exact absurd he (by simp)
        · exact Or.inr (Or.inr (Or.inl ⟨st, text, body, rfl, hst⟩))
    · rintro (h | ⟨m, h⟩ | ⟨st, text, body, h, hst⟩ | ⟨text, body, h, hex⟩)
      · subst h; exact ⟨_, rfl⟩
      · subst h; exact ⟨_, rfl⟩
      · subst h
        exact ⟨⟨"OCR API returned status " ++ toString st ++ ": " ++ text, idx⟩,
               by simp only [call_ocr, if_pos hst]⟩
      · subst h
        rcases hex with hex | hex
        · exact ⟨⟨"Invalid OCR response format: " ++ pyExcName .keyError, idx⟩,
                 by simp only [call_ocr, if_neg (by omega : ¬(200 : Nat) ≠ 200), hex]⟩
        · exact ⟨⟨"Invalid OCR response format: " ++ pyExcName .indexError, idx⟩,
                 by simp only [call_ocr, if_neg (by omega : ¬(200 : Nat) ≠ 200), hex]⟩
  · intro e he
    match outcome with
    | .timeout => simp only [call_ocr] at he; cases he; rfl
    | .transportError m => simp only [call_ocr] at he; cases he; rfl
    | .response st text body =>
      by_cases hst : st = 200
      · subst hst
        simp only [call_ocr, if_neg (by omega : ¬(200 : Nat) ≠ 200)] at he
        cases hex : extractContent body with
        | ok v => rw [hex] at he; exact absurd he (by simp)
        | error p =>
          rw [hex] at he
          cases p <;> simp_all <;> (cases he; rfl)
      · simp only [call_ocr, if_pos hst] at he; cases he; rfl
  · rintro st text body rfl hst
    simp only [call_ocr, if_pos hst]
  · rintro text body v rfl hex
    simp only [call_ocr, if_neg (by omega : ¬(200 : Nat) ≠ 200), hex]

/-- C5 witness: the amended characterization applied at a 404 response
and at a well-formed 200 response. -/
theorem call_ocr_failure_characterization_witness :
    call_ocr (.response 404 "not found" .null) 7
      = .ocrError ⟨"OCR API returned status 404: not found", 7⟩
    ∧ call_ocr (.response 200 "" okBody) 7 = .ok (.str "desc") :=
  ⟨(call_ocr_failure_characterization (.response 404 "not found" .null) 7).2.2.1
      404 "not found" .null rfl (by omega),
   (call_ocr_failure_characterization (.response 200 "" okBody) 7).2.2.2
      "" okBody (.str "desc") rfl (by decide)⟩

/-- C6 (counterexample): `rebuild_messages` with no images and empty OCR
text is *not* the identity: a list-typed content holding a single `text`
item is collapsed to a bare string even though nothing was removed. -/
theorem rebuild_empty_not_structural_identity :
    rebuild_messages [⟨some "user", some (.list [textItem "hi"]), []⟩] [] ""
      ≠ some [⟨some "user", some (.list [textItem "hi"]), []⟩] := by decide

/-- Messages with no list-typed content pass through the first loop of
`rebuild_messages` unchanged. -/
theorem rebuildPhase1_nonlist :
    ∀ (msgs : List Message) (rm : List (Nat × Nat)) (i : Nat),
      msgs.all nonListContent = true → rebuildPhase1 rm i msgs = some msgs
  | [], _, _, _ => rfl
  | m :: rest, rm, i, h => by
    rw [List.all_cons, Bool.and_eq_true] at h
    have hm := h.1
    have hrec := rebuildPhase1_nonlist rest rm (i + 1) h.2
    unfold nonListContent at hm
    cases hc : m.content with
    | none => simp [rebuildPhase1, rebuildMsg, hc, hrec]
    | some c =>
      cases c with
      | str s => simp [rebuildPhase1, rebuildMsg, hc, hrec]
      | blob n => simp [rebuildPhase1, rebuildMsg, hc, hrec]
      | list items => rw [hc] at hm; exact absurd hm (by simp)

/-- C6 (amended): `format_ocr_results []` is the empty string, and
`rebuild_messages` with no images and empty OCR text is structurally the
identity on every message list with no list-typed content.  (A list-typed
content is shape-normalized even when nothing is removed, so the
unrestricted structural equality fails.) -/
theorem format_empty_and_rebuild_empty_identity :
    format_ocr_results [] = ""
    ∧ ∀ messages : List Message, messages.all nonListContent = true →
        rebuild_messages messages [] "" = some messages := by
  refine ⟨rfl, fun msgs h => ?_⟩
  unfold rebuild_messages
  rw [rebuildPhase1_nonlist msgs (coordsOf []) 0 h]
  simp [appendOcr]

/-- C6 witness: the amended identity applied to a two-message list with
string contents. -/
theorem format_empty_and_rebuild_empty_identity_witness :
    rebuild_messages
      [⟨some "system", some (.str "sys"), []⟩, ⟨some "user", some (.str "hi"), []⟩] [] ""
      = some [⟨some "system", some (.str "sys"), []⟩, ⟨some "user", some (.str "hi"), []⟩] :=
  format_empty_and_rebuild_empty_identity.2
    [⟨some "system", some (.str "sys"), []⟩, ⟨some "user", some (.str "hi"), []⟩]
    (by decide)

/-- C3 (counterexample): a message whose list-typed content is left with
exactly one non-dict element does not keep "the filtered list" as its
content — the code raises instead (modelled by `none`), so the claim's
"otherwise" case is wrong for non-dict items. -/
theorem rebuild_single_nondict_raises :
    rebuild_messages [⟨some "assistant", some (.list [.nondict "oops"]), []⟩] [] ""
      = none := by decide

/-- C3 (amended): per-message content-shape normalization performed by
the first loop of `rebuild_messages` (`rebuildMsg`, used by
`rebuildPhase1`, with `rebuild_messages msgs imgs ocr =
(rebuildPhase1 (coordsOf imgs) 0 msgs).map (appendOcr ocr)`): after
filtering, an empty remainder collapses to `""`; a single remaining
`text` dict item collapses to its `text` field (empty string when the
field is absent); a single remaining dict item of another type, or two or
more remaining items, keep the filtered list; a single remaining non-dict
item raises; non-list content is left untouched. -/
theorem content_shape_normalization (i : Nat) (rm : List (Nat × Nat)) (m : Message) :
    (∀ msgs imgs ocr, rebuild_messages msgs imgs ocr
        = (rebuildPhase1 (coordsOf imgs) 0 msgs).map (appendOcr ocr))
    ∧ ((∀ items, m.content ≠ some (.list items)) → rebuildMsg i rm m = some m)
    ∧ (∀ items, m.content = some (.list items) →
        (filterContent i rm 0 items = [] →
          rebuildMsg i rm m = some { m with content := some (.str "") })
        ∧ (∀ fs, filterContent i rm 0 items = [.dict fs] →
            dget fs "type" = some (.str "text") →
            rebuildMsg i rm m = some { m with content := some (textValue fs) })
        ∧ (∀ fs, filterContent i rm 0 items = [.dict fs] →
            dget fs "type" ≠ some (.str "text") →
            rebuildMsg i rm m = some { m with content := some (.list [.dict fs]) })
        ∧ (∀ s, filterContent i rm 0 items = [.nondict s] →
            rebuildMsg i rm m = none)
        ∧ (2 ≤ (filterContent i rm 0 items).length →
            rebuildMsg i rm m
              = some { m with content := some (.list (filterContent i rm 0 items)) })) := by
  refine ⟨fun _ _ _ => rfl, ?_, ?_⟩
  · intro hnl
    unfold rebuildMsg
    cases hc : m.content with
    | none => rfl
    | some c =>
      cases c with
      | str s => rfl
      | blob n => rfl
      | list items => exact absurd hc (hnl items)
  · intro items hc
    refine ⟨?_, ?_, ?_, ?_, ?_⟩
    · intro hf
      simp only [rebuildMsg, hc, hf, normalizeContent, Option.map_some']
    · intro fs hf hty
      simp only [rebuildMsg, hc, hf, normalizeContent, textValue]
      rw [if_pos (by simp [hty])]
      rfl
    · intro fs hf hty
      simp only [rebuildMsg, hc, hf, normalizeContent]
      rw [if_neg (by simpa using hty)]
      rfl
    · intro s hf
      simp only [rebuildMsg, hc, hf, normalizeContent, Option.map_none']
    · intro hlen
      match hf : filterContent i rm 0 items with
      | [] => rw [hf] at hlen; simp at hlen
      | [x] => rw [hf] at hlen; simp at hlen
      | x :: y :: rest =>
        simp only [rebuildMsg, hc, hf, normalizeContent, Option.map_some']

/-- C3 witness: the normalization cases at concrete inputs (an empty
remainder, a single text item, a single image-typed item, a single
non-dict item, and a two-item remainder). -/
theorem content_shape_normalization_witness :
    rebuildMsg 0 [(0, 0)] ⟨some "user", some (.list [imgItem]), []⟩
      = some ⟨some "user", some (.str ""), []⟩
    ∧ rebuildMsg 0 [] ⟨some "user", some (.list [textItem "hi"]), []⟩
      = some ⟨some "user", some (.str "hi"), []⟩
    ∧ rebuildMsg 0 [] ⟨some "user", some (.list [.nondict "x"]), []⟩ = none
    ∧ rebuildMsg 0 [] ⟨some "user", some (.list [textItem "a", textItem "b"]), []⟩
      = some ⟨some "user", some (.list [textItem "a", textItem "b"]), []⟩
    ∧ rebuildMsg 0 [] ⟨some "user", some (.str "s"), []⟩
      = some ⟨some "user", some (.str "s"), []⟩ := by
  refine ⟨?_, ?_, ?_, ?_, ?_⟩
  · exact ((content_shape_normalization 0 [(0, 0)]
        ⟨some "user", some (.list [imgItem]), []⟩).2.2 [imgItem] rfl).1 (by decide)
  · have h := ((content_shape_normalization 0 []
        ⟨some "user", some (.list [textItem "hi"]), []⟩).2.2 [textItem "hi"] rfl).2.1
        [("type", JVal.str "text"), ("text", JVal.str "hi")] (by decide) (by decide)
    exact h.trans (by decide)
  · exact ((content_shape_normalization 0 []
        ⟨some "user", some (.list [.nondict "x"]), []⟩).2.2 [.nondict "x"] rfl).2.2.2.1
        "x" (by decide)
  · have h := ((content_shape_normalization 0 []
        ⟨some "user", some (.list [textItem "a", textItem "b"]), []⟩).2.2
        [textItem "a", textItem "b"] rfl).2.2.2.2 (by decide)
    exact h.trans (by decide)
  · exact (content_shape_normalization 0 []
        ⟨some "user", some (.str "s"), []⟩).2.1 (fun items h => by simp at h)

/-- The function `find?` splits its list at the first hit: everything before it fails
the predicate. -/
theorem find?_decomp {α : Type} (p : α → Bool) :
    ∀ (l : List α) (x : α), l.find? p = some x →
      ∃ l₁ l₂, l = l₁ ++ x :: l₂ ∧ ∀ y ∈ l₁, p y = false
  | [], x, h => by simp at h
  | a :: l, x, h => by
    by_cases ha : p a
    · rw [List.find?_cons_of_pos _ ha] at h
      cases h
      exact ⟨[], l, rfl, by simp⟩
    · rw [List.find?_cons_of_neg _ (by simpa using ha)] at h
      obtain ⟨l₁, l₂, hsplit, hl₁⟩ := find?_decomp p l x h
      refine ⟨a :: l₁, l₂, by rw [hsplit]; rfl, ?_⟩
      intro y hy
      rcases List.mem_cons.1 hy with rfl | hy
      · simpa using ha
      · exact hl₁ y hy

/-- If the backwards scan finds index `i`, the message there has role
`"user"` and no later message does. -/
theorem lastUserIdx_eq_some {msgs : List Message} {i : Nat}
    (h : lastUserIdx msgs = some i) :
    (∃ m, msgs.get? i = some m ∧ m.role = some "user")
    ∧ ∀ j m', msgs.get? j = some m' → i < j → m'.role ≠ some "user" := by
  unfold lastUserIdx at h
  constructor
  · have h1 := List.find?_some h
    cases hm : msgs.get? i with
    | none => rw [hm] at h1; simp at h1
    | some m =>
      rw [hm] at h1
      simp only [Option.any_some, beq_iff_eq] at h1
      exact ⟨m, rfl, h1⟩
  · intro j m' hj hij hrole
    obtain ⟨l₁, l₂, hsplit, hfalse⟩ := find?_decomp _ _ _ h
    have hjlen : j < msgs.length := by
      by_contra hle
      rw [List.get?_eq_none.2 (Nat.le_of_not_lt hle)] at hj
      exact Option.noConfusion hj
    have hjmem : j ∈ (List.range msgs.length).reverse := by
      rw [List.mem_reverse, List.mem_range]; exact hjlen
    rw [hsplit] at hjmem
    rcases List.mem_append.1 hjmem with hj1 | hj2
    · have := hfalse j hj1
      rw [hj] at this
      simp [hrole] at this
    · rcases List.mem_cons.1 hj2 with rfl | hj2
      · exact Nat.lt_irrefl j hij
      · have hpair : ((List.range msgs.length).reverse).Pairwise (fun a b => a > b) := by
          rw [List.pairwise_reverse]
          simpa [flip] using List.pairwise_lt_range msgs.length
        rw [hsplit] at hpair
        have hcons := (List.pairwise_append.1 hpair).2.1
        rw [List.pairwise_cons] at hcons
        have := hcons.1 j hj2
        omega

/-- If the backwards scan finds nothing, no message has role `"user"`. -/
theorem lastUserIdx_eq_none {msgs : List Message}
    (h : lastUserIdx msgs = none) :
    ∀ m ∈ msgs, m.role ≠ some "user" := by
  intro m hm hrole
  obtain ⟨j, hj⟩ := List.get?_of_mem hm
  unfold lastUserIdx at h
  rw [List.find?_eq_none] at h
  have hjlen : j < msgs.length := by
    by_contra hle
    rw [List.get?_eq_none.2 (Nat.le_of_not_lt hle)] at hj
    exact Option.noConfusion hj
  have := h j (by rw [List.mem_reverse, List.mem_range]; exact hjlen)
  rw [hj] at this
  simp [hrole] at this

/-- C2 (counterexample): when the last user message's content is neither
a string nor a list (here a JSON `null`, modelled as a blob), nothing is
appended anywhere — `rebuild_messages` returns the input unchanged even
though the OCR text is non-empty, contradicting "rebuild_messages appends
the OCR text at the last user message". -/
theorem rebuild_no_append_on_null_content :
    rebuild_messages [⟨some "user", some (.blob 0), []⟩] [] "图片1内容：(a cat)"
      = some [⟨some "user", some (.blob 0), []⟩] := by decide

/-- C2 (amended): for non-empty OCR text, the append step of
`rebuild_messages` (`appendOcr`, applied to the output of the filtering
phase, with `rebuild_messages = rebuildPhase1 ∘ appendOcr` when the
filtering phase returns normally) updates exactly the last message whose
role is `"user"`: non-empty string content becomes `old ++ "\n\n" ++
ocr`; empty or absent content becomes exactly `ocr`; list content gets
one `text` item `"\n\n" ++ ocr` appended; content of any other type is
left unchanged (nothing is appended anywhere); and when no user message
exists a new trailing `{role: "user", content: ocr}` message is
appended. -/
theorem ocr_append_behavior (ocr : String) (hocr : ocr ≠ "") :
    (∀ msgs i, lastUserIdx msgs = some i →
      (∃ m, msgs.get? i = some m ∧ m.role = some "user"
        ∧ appendOcr ocr msgs
            = msgs.set i { m with content := appendToContent ocr m.content })
      ∧ (∀ j m', msgs.get? j = some m' → i < j → m'.role ≠ some "user")
      ∧ (∀ j, j ≠ i → (appendOcr ocr msgs).get? j = msgs.get? j))
    ∧ (∀ msgs, lastUserIdx msgs = none →
        (∀ m ∈ msgs, m.role ≠ some "user")
        ∧ appendOcr ocr msgs = msgs ++ [⟨some "user", some (.str ocr), []⟩])
    ∧ (∀ s, s ≠ "" → appendToContent ocr (some (.str s)) = some (.str (s ++ "\n\n" ++ ocr)))
    ∧ appendToContent ocr (some (.str "")) = some (.str ocr)
    ∧ appendToContent ocr none = some (.str ocr)
    ∧ (∀ l, appendToContent ocr (some (.list l)) = some (.list (l ++ [ocrTextItem ocr])))
    ∧ (∀ n, appendToContent ocr (some (.blob n)) = some (.blob n))
    ∧ (∀ msgs imgs mid, rebuildPhase1 (coordsOf imgs) 0 msgs = some mid →
        rebuild_messages msgs imgs ocr = some (appendOcr ocr mid)) := by
  have hocr' : (ocr == "") = false := by
    cases hb : ocr == "" with
    | false => rfl
    | true => exact absurd (by simpa using hb) hocr
  refine ⟨?_, ?_, ?_, ?_, ?_, ?_, ?_, ?_⟩
  · intro msgs i hlast
    obtain ⟨⟨m, hm, hrole⟩, hlater⟩ := lastUserIdx_eq_some hlast
    have happ : appendOcr ocr msgs
        = msgs.set i { m with content := appendToContent ocr m.content } := by
      unfold appendOcr
      rw [hocr']
      simp only [Bool.false_eq_true, if_false, hlast, hm]
    refine ⟨⟨m, hm, hrole, happ⟩, hlater, ?_⟩
    intro j hj
    rw [happ, List.get?_set_ne _ _ (fun h => hj h.symm)]
  · intro msgs hlast
    refine ⟨lastUserIdx_eq_none hlast, ?_⟩
    unfold appendOcr
    rw [hocr']
    simp only [Bool.false_eq_true, if_false, hlast]
  · intro s hs
    have hs' : (s == "") = false := by
      cases hb : s == "" with
      | false => rfl
      | true => exact absurd (by simpa using hb) hs
    simp [appendToContent, hs']
  · simp [appendToContent]
  · simp [appendToContent]
  · intro l; simp [appendToContent]
  · intro n; simp [appendToContent]
  · intro msgs imgs mid hmid
    unfold rebuild_messages
    rw [hmid]
    rfl

/-- C2 witness: the amended behavior at concrete inputs — a list with no
user message gains a trailing user message, and non-empty string content
is extended with a blank line plus the OCR text. -/
theorem ocr_append_behavior_witness :
    appendOcr "X" [⟨some "system", some (.str "sys"), []⟩]
      = [⟨some "system", some (.str "sys"), []⟩, ⟨some "user", some (.str "X"), []⟩]
    ∧ appendToContent "X" (some (.str "hi")) = some (.str "hi\n\nX") := by
  have h := ocr_append_behavior "X" (by decide)
  exact ⟨(h.2.1 [⟨some "system", some (.str "sys"), []⟩] (by decide)).2,
         h.2.2.1 "hi" (by decide)⟩

/-- Inserting a key that is not yet bound appends the pair. -/
theorem dictInsert_fresh (d : List (String × String)) (k v : String)
    (h : ∀ p ∈ d, p.1 ≠ k) : dictInsert d k v = d ++ [(k, v)] := by
  unfold dictInsert
  rw [if_neg]
  simp only [List.any_eq_true, beq_iff_eq, not_exists, not_and]
  exact fun p hp => h p hp

/-- With pairwise-distinct header names, the dict-building fold is the
filter of the skipped names, appended to the accumulator. -/
theorem buildHeadersSkip_go (skip : String → Bool) :
    ∀ (hs acc : List (String × String)),
      (hs.map Prod.fst).Nodup →
      (∀ p ∈ hs, ∀ q ∈ acc, q.1 ≠ p.1) →
      List.foldl (fun d p => if skip p.1 then d else dictInsert d p.1 p.2) acc hs
        = acc ++ hs.filter (fun p => !skip p.1)
  | [], acc, _, _ => by simp
  | p :: hs, acc, hnd, hacc => by
    rw [List.map_cons, List.nodup_cons] at hnd
    simp only [List.foldl_cons]
    by_cases hskip : skip p.1
    · rw [if_pos hskip]
      rw [buildHeadersSkip_go skip hs acc hnd.2
        (fun q hq r hr => hacc q (List.mem_cons_of_mem p hq) r hr)]
      simp [List.filter_cons, hskip]
    · rw [if_neg hskip]
      rw [dictInsert_fresh acc p.1 p.2
        (fun q hq => hacc p (List.mem_cons_self p hs) q hq)]
      rw [buildHeadersSkip_go skip hs (acc ++ [(p.1, p.2)]) hnd.2 ?fresh]
      · simp [List.filter_cons, hskip]
      case fresh =>
        intro q hq r hr
        rcases List.mem_append.1 hr with hr | hr
        · exact hacc q (List.mem_cons_of_mem p hq) r hr
        · rcases List.mem_cons.1 hr with rfl | hr
          · intro hqe
            exact hnd.1 (hqe ▸ List.mem_map_of_mem Prod.fst hq)
          · exact absurd hr (List.not_mem_nil r)

/-- C8: with pairwise-distinct header names, the forwarded request
headers are exactly the inbound headers minus `Host` and
`Content-Length` (case-insensitive), each surviving pair unchanged and in
order; and the relayed non-streaming response keeps the upstream status
and body verbatim while its headers are exactly the upstream headers
minus the hop-by-hop set `connection, keep-alive, transfer-encoding, te,
trailers, upgrade`. -/
theorem passthrough_header_filtering
    (inbound : List (String × String)) (up : UpResponse)
    (hin : (inbound.map Prod.fst).Nodup)
    (hup : (up.headers.map Prod.fst).Nodup) :
    buildForwardHeaders inbound
      = inbound.filter (fun p =>
          !(strToLower p.1 == "host" || strToLower p.1 == "content-length"))
    ∧ passthroughResponse up
      = ⟨up.status,
         up.headers.filter (fun p => !hopByHop.contains (strToLower p.1)),
         up.content⟩ := by
  have h1 : buildForwardHeaders inbound
      = inbound.filter (fun p =>
          !(strToLower p.1 == "host" || strToLower p.1 == "content-length")) := by
    unfold buildForwardHeaders buildHeadersSkip
    simpa using buildHeadersSkip_go
      (fun k => strToLower k == "host" || strToLower k == "content-length")
      inbound [] hin (by simp)
  have h2 : buildRelayHeaders up.headers
      = up.headers.filter (fun p => !hopByHop.contains (strToLower p.1)) := by
    unfold buildRelayHeaders buildHeadersSkip
    simpa using buildHeadersSkip_go
      (fun k => hopByHop.contains (strToLower k)) up.headers [] hup (by simp)
  refine ⟨h1, ?_⟩
  unfold passthroughResponse
  rw [h2]

/-- C8 witness: the forwarded-header filter drops `Host` and
`Content-Length` and keeps `Authorization`; the relayed response drops
`Connection` and keeps `Content-Type`, status and body. -/
theorem passthrough_header_filtering_witness :
    buildForwardHeaders
      [("Host", "x"), ("Authorization", "Bearer t"), ("Content-Length", "3")]
      = [("Authorization", "Bearer t")]
    ∧ passthroughResponse
        ⟨200, [("Connection", "keep-alive"), ("Content-Type", "application/json")], [1, 2]⟩
      = ⟨200, [("Content-Type", "application/json")], [1, 2]⟩ := by
  have h := passthrough_header_filtering
    [("Host", "x"), ("Authorization", "Bearer t"), ("Content-Length", "3")]
    ⟨200, [("Connection", "keep-alive"), ("Content-Type", "application/json")], [1, 2]⟩
    (by decide) (by decide)
  exact ⟨h.1.trans (by decide), h.2.trans (by decide)⟩

/-- Membership in the inner extraction loop: exactly the image items of
the list, at coordinates shifted by the starting content index. -/
theorem mem_extractItems (i : Nat) (t : Nat × Nat × CItem) :
    ∀ (items : List CItem) (j : Nat),
      t ∈ extractItems i j items ↔
        ∃ k it, items.get? k = some it ∧ isImageItem it = true ∧ t = (i, j + k, it)
  | [], j => by simp [extractItems]
  | x :: items, j => by
    simp only [extractItems]
    constructor
    · intro ht
      rcases List.mem_append.1 ht with h1 | h2
      · by_cases hx : isImageItem x
        · rw [if_pos hx] at h1
          rcases List.mem_singleton.1 h1 with rfl
          exact ⟨0, x, rfl, hx, by simp⟩
        · rw [if_neg hx] at h1
          exact absurd h1 (List.not_mem_nil t)
      · obtain ⟨k, it, hk, him, rfl⟩ := (mem_extractItems i t items (j + 1)).1 h2
        exact ⟨k + 1, it, hk, him, by rw [show j + (k + 1) = j + 1 + k by omega]⟩
    · rintro ⟨k, it, hk, him, rfl⟩
      cases k with
      | zero =>
        rw [List.get?_cons_zero] at hk
        cases hk
        apply List.mem_append.2 (Or.inl _)
        rw [if_pos him]
        simp
      | succ k' =>
        rw [List.get?_cons_succ] at hk
        apply List.mem_append.2 (Or.inr _)
        exact (mem_extractItems i _ items (j + 1)).2
          ⟨k', it, hk, him, by rw [show j + (k' + 1) = j + 1 + k' by omega]⟩

/-- Membership in the outer extraction loop: an element comes from some
message with list-typed content, at a message index shifted by the
starting index. -/
theorem mem_extractGo (t : Nat × Nat × CItem) :
    ∀ (msgs : List Message) (i : Nat),
      t ∈ extractGo i msgs ↔
        ∃ k m items, msgs.get? k = some m ∧ m.content = some (.list items)
          ∧ t ∈ extractItems (i + k) 0 items
  | [], i => by simp [extractGo]
  | m :: msgs, i => by
    simp only [extractGo]
    constructor
    · intro ht
      rcases List.mem_append.1 ht with h1 | h2
      · cases hc : m.content with
        | none => rw [hc] at h1; exact absurd h1 (List.not_mem_nil t)
        | some c =>
          cases c with
          | str s => rw [hc] at h1; exact absurd h1 (List.not_mem_nil t)
          | blob n => rw [hc] at h1; exact absurd h1 (List.not_mem_nil t)
          | list items =>
            rw [hc] at h1
            exact ⟨0, m, items, rfl, hc, by simpa using h1⟩
      · obtain ⟨k, m', items, hk, hc, hmem⟩ := (mem_extractGo t msgs (i + 1)).1 h2
        exact ⟨k + 1, m', items, by simpa using hk, hc,
               by rwa [show i + (k + 1) = i + 1 + k by omega]⟩
    · rintro ⟨k, m', items, hk, hc, hmem⟩
      cases k with
      | zero =>
        rw [List.get?_cons_zero] at hk
        cases hk
        apply List.mem_append.2 (Or.inl _)
        rw [hc]
        simpa using hmem
      | succ k' =>
        rw [List.get?_cons_succ] at hk
        apply List.mem_append.2 (Or.inr _)
        exact (mem_extractGo t msgs (i + 1)).2
          ⟨k', m', items, hk, hc,
           by rwa [show i + 1 + k' = i + (k' + 1) by omega]⟩

/-- Every element of the inner loop carries the message index `i` and a
content index at least `j`. -/
theorem extractItems_coords (i j : Nat) (items : List CItem) :
    ∀ t ∈ extractItems i j items, t.1 = i ∧ j ≤ t.2.1 := by
  intro t ht
  obtain ⟨k, it, _, _, rfl⟩ := (mem_extractItems i t items j).1 ht
  exact ⟨rfl, Nat.le_add_right j k⟩

/-- The inner loop produces strictly increasing content indices. -/
theorem extractItems_pairwise (i : Nat) :
    ∀ (items : List CItem) (j : Nat),
      List.Pairwise (fun a b : Nat × Nat × CItem => a.2.1 < b.2.1)
        (extractItems i j items)
  | [], j => by simp [extractItems]
  | x :: items, j => by
    simp only [extractItems]
    rw [List.pairwise_append]
    refine ⟨?_, extractItems_pairwise i items (j + 1), ?_⟩
    · by_cases hx : isImageItem x
      · rw [if_pos hx]; exact List.pairwise_singleton _ _
      · rw [if_neg hx]; exact List.Pairwise.nil
    · intro a ha b hb
      by_cases hx : isImageItem x
      · rw [if_pos hx] at ha
        rcases List.mem_singleton.1 ha with rfl
        have hb' := (extractItems_coords i (j + 1) items b hb).2
        simpa using Nat.lt_of_lt_of_le (Nat.lt_succ_self j) hb'
      · rw [if_neg hx] at ha
        exact absurd ha (List.not_mem_nil a)

/-- Every element of the outer loop carries a message index at least
`i`. -/
theorem extractGo_fst (i : Nat) (msgs : List Message) :
    ∀ t ∈ extractGo i msgs, i ≤ t.1 := by
  intro t ht
  obtain ⟨k, m, items, _, _, hmem⟩ := (mem_extractGo t msgs i).1 ht
  have := (extractItems_coords (i + k) 0 items t hmem).1
  omega

/-- The outer loop is sorted strictly by message index, then content
index. -/
theorem extractGo_pairwise :
    ∀ (msgs : List Message) (i : Nat),
      List.Pairwise (fun a b : Nat × Nat × CItem =>
        a.1 < b.1 ∨ (a.1 = b.1 ∧ a.2.1 < b.2.1)) (extractGo i msgs)
  | [], i => by simp [extractGo]
  | m :: msgs, i => by
    simp only [extractGo]
    rw [List.pairwise_append]
    refine ⟨?_, extractGo_pairwise msgs (i + 1), ?_⟩
    · have hblock : ∀ (items : List CItem),
          List.Pairwise (fun a b : Nat × Nat × CItem =>
            a.1 < b.1 ∨ (a.1 = b.1 ∧ a.2.1 < b.2.1)) (extractItems i 0 items) := by
        intro items
        refine (extractItems_pairwise i items 0).imp_of_mem ?_
        intro a b ha hb hlt
        exact Or.inr ⟨((extractItems_coords i 0 items a ha).1).trans
          ((extractItems_coords i 0 items b hb).1).symm, hlt⟩
      cases hc : m.content with
      | none => exact List.Pairwise.nil
      | some c =>
        cases c with
        | str s => exact List.Pairwise.nil
        | blob n => exact List.Pairwise.nil
        | list items => exact hblock items
      -- (the match arms above mirror the shape of `extractGo`)
    · intro a ha b hb
      have hbge : i + 1 ≤ b.1 := extractGo_fst (i + 1) msgs b hb
      have hafst : a.1 = i := by
        cases hc : m.content with
        | none => rw [hc] at ha; exact absurd ha (List.not_mem_nil a)
        | some c =>
          cases c with
          | str s => rw [hc] at ha; exact absurd ha (List.not_mem_nil a)
          | blob n => rw [hc] at ha; exact absurd ha (List.not_mem_nil a)
          | list items => rw [hc] at ha; exact (extractItems_coords i 0 items a ha).1
      exact Or.inl (by omega)

/-- Membership characterization of `extract_images`. -/
theorem mem_extract_images (msgs : List Message) (i j : Nat) (it : CItem) :
    (i, j, it) ∈ extract_images msgs ↔
      ∃ m items, msgs.get? i = some m ∧ m.content = some (.list items)
        ∧ items.get? j = some it ∧ isImageItem it = true := by
  constructor
  · intro ht
    obtain ⟨k, m, items, hk, hc, hmem⟩ := (mem_extractGo _ msgs 0).1 ht
    obtain ⟨k', it', hk', him, heq⟩ := (mem_extractItems _ _ items 0).1 hmem
    obtain ⟨rfl, rfl, rfl⟩ := Prod.mk.injEq .. ▸ (by
      injection heq with h1 hrest
      injection hrest with h2 h3
      exact ⟨h1.trans (Nat.zero_add k), (Nat.zero_add k') ▸ h2, h3⟩ :
        i = k ∧ j = k' ∧ it = it')
    exact ⟨m, items, hk, hc, hk', him⟩
  · rintro ⟨m, items, hm, hc, hj, him⟩
    exact (mem_extractGo _ msgs 0).2
      ⟨i, m, items, hm, hc,
       (mem_extractItems _ _ items 0).2 ⟨j, it, hj, him, by simp⟩⟩

/-- C7: `extract_images` returns exactly the `image_url` dict items found
inside list-typed content (string-typed content contributes nothing),
each with its `(message_index, content_index)` coordinates, strictly
sorted by message index then content index (so the order is deterministic
and duplicate-free); being a pure function of its input, it never mutates
the messages. -/
theorem extract_images_characterization (msgs : List Message) :
    (∀ i j it, (i, j, it) ∈ extract_images msgs ↔
      ∃ m items, msgs.get? i = some m ∧ m.content = some (.list items)
        ∧ items.get? j = some it ∧ isImageItem it = true)
    ∧ List.Pairwise (fun a b : Nat × Nat × CItem =>
        a.1 < b.1 ∨ (a.1 = b.1 ∧ a.2.1 < b.2.1)) (extract_images msgs) :=
  ⟨fun i j it => mem_extract_images msgs i j it, extractGo_pairwise msgs 0⟩

/-- Membership in the removal-coordinate set. -/
theorem mem_coordsOf (a b : Nat) (l : List (Nat × Nat × CItem)) :
    (a, b) ∈ coordsOf l ↔ ∃ it, (a, b, it) ∈ l := by
  unfold coordsOf
  rw [List.mem_map]
  constructor
  · rintro ⟨⟨t1, t2, t3⟩, ht, heq⟩
    injection heq with h1 h2
    subst h1; subst h2
    exact ⟨t3, ht⟩
  · rintro ⟨it, hit⟩
    exact ⟨(a, b, it), hit, rfl⟩

/-- At a message taken from the list itself, the removal coordinates of
`extract_images` mark exactly the image items of that message. -/
theorem extract_coords_iff {msgs : List Message} {i : Nat} {m : Message}
    {items : List CItem} (hm : msgs.get? i = some m)
    (hc : m.content = some (.list items)) :
    ∀ k it, items.get? k = some it →
      ((i, k) ∈ coordsOf (extract_images msgs) ↔ isImageItem it = true) := by
  intro k it hk
  rw [mem_coordsOf]
  constructor
  · rintro ⟨it', hit'⟩
    obtain ⟨m', items', hm', hc', hk', him'⟩ := (mem_extract_images msgs i k it').1 hit'
    rw [hm] at hm'
    cases hm'
    rw [hc] at hc'
    injection hc' with hc''
    injection hc'' with hitems
    subst hitems
    rw [hk] at hk'
    cases hk'
    exact him'
  · intro him
    exact ⟨it, (mem_extract_images msgs i k it).2 ⟨m, items, hm, hc, hk, him⟩⟩

/-- When membership in the removal set coincides with being an image
item, the filtering loop is `List.filter` by non-image. -/
theorem filterContent_eq_filter (i : Nat) (rm : List (Nat × Nat)) :
    ∀ (items : List CItem) (j : Nat),
      (∀ k it, items.get? k = some it → ((i, j + k) ∈ rm ↔ isImageItem it = true)) →
      filterContent i rm j items = items.filter (fun it => !isImageItem it)
  | [], _, _ => rfl
  | x :: items, j, h => by
    have h0 := h 0 x rfl
    simp only [Nat.add_zero] at h0
    have hshift : ∀ k it, items.get? k = some it →
        ((i, (j + 1) + k) ∈ rm ↔ isImageItem it = true) := by
      intro k it hk
      have := h (k + 1) it (by simpa using hk)
      rwa [show j + (k + 1) = j + 1 + k by omega] at this
    have hrec := filterContent_eq_filter i rm items (j + 1) hshift
    simp only [filterContent, List.filter_cons]
    by_cases hx : isImageItem x
    · rw [if_pos (h0.2 hx), hrec]
      simp [hx]
    · rw [if_neg (fun hmem => hx (h0.1 hmem)), hrec]
      simp [hx]

/-- Normalization succeeds whenever every remaining item is a dict. -/
theorem normalizeContent_isSome (nc : List CItem)
    (h : ∀ it ∈ nc, itemIsDict it = true) :
    ∃ c, normalizeContent nc = some c := by
  match nc with
  | [] => exact ⟨.str "", rfl⟩
  | [it] =>
    match it with
    | .nondict s => exact absurd (h _ (List.mem_singleton_self _)) (by simp [itemIsDict])
    | .dict fs =>
      by_cases hty : (dget fs "type" == some (.str "text")) = true
      · exact ⟨textValue fs, by simp only [normalizeContent, if_pos hty]⟩
      · exact ⟨.list [.dict fs],
          by simp only [normalizeContent, if_neg hty]⟩
  | it :: it2 :: rest => exact ⟨.list (it :: it2 :: rest), rfl⟩

/-- A normalized content that is still a list only holds items of the
filtered remainder; with an image-free remainder it stays image-free. -/
theorem normalizeContent_no_images (nc : List CItem) (c : Content)
    (hnorm : normalizeContent nc = some c)
    (hni : ∀ it ∈ nc, isImageItem it = false) :
    ∀ items', c = .list items' → ∀ it ∈ items', isImageItem it = false := by
  intro items' hc it hit
  match nc, hnorm with
  | [], hnorm =>
    injection hnorm with h
    rw [← h] at hc
    exact absurd hc (by simp)
  | [.dict fs], hnorm =>
    by_cases hty : (dget fs "type" == some (.str "text")) = true
    · rw [show normalizeContent [.dict fs] = some (textValue fs) from
        by simp only [normalizeContent, if_pos hty]] at hnorm
      injection hnorm with h
      rw [← h] at hc
      unfold textValue at hc
      cases hv : dget fs "text" with
      | none => rw [hv] at hc; exact absurd hc (by simp)
      | some v =>
        cases v with
        | str s => rw [hv] at hc; exact absurd hc (by simp)
        | blob n => rw [hv] at hc; exact absurd hc (by simp)
    · rw [show normalizeContent [.dict fs] = some (.list [.dict fs]) from
        by simp only [normalizeContent, if_neg hty]] at hnorm
      injection hnorm with h
      rw [← h] at hc
      injection hc with h2
      subst h2
      rcases List.mem_singleton.1 hit with rfl
      exact hni _ (List.mem_singleton_self _)
  | [.nondict s], hnorm => exact absurd hnorm (by simp [normalizeContent])
  | x :: y :: rest, hnorm =>
    injection hnorm with h
    rw [← h] at hc
    injection hc with h2
    subst h2
    exact hni it hit

/-- Pointwise description of a successful first loop. -/
theorem rebuildPhase1_get :
    ∀ (msgs res : List Message) (rm : List (Nat × Nat)) (i : Nat),
      rebuildPhase1 rm i msgs = some res →
      res.length = msgs.length ∧
      ∀ k, res.get? k = (msgs.get? k).bind (fun m => rebuildMsg (i + k) rm m)
  | [], res, rm, i, h => by
    injection h with h
    subst h
    exact ⟨rfl, fun k => by simp⟩
  | m :: rest, res, rm, i, h => by
    unfold rebuildPhase1 at h
    cases hm : rebuildMsg i rm m with
    | none => rw [hm] at h; exact absurd h (by simp)
    | some m' =>
      rw [hm] at h
      cases hrec : rebuildPhase1 rm (i + 1) rest with
      | none => rw [hrec] at h; exact absurd h (by simp)
      | some res' =>
        rw [hrec] at h
        injection h with h
        subst h
        obtain ⟨hlen, hget⟩ := rebuildPhase1_get rest res' rm (i + 1) hrec
        refine ⟨by simp [hlen], fun k => ?_⟩
        cases k with
        | zero => simp [Nat.add_zero, hm]
        | succ k' =>
          rw [List.get?_cons_succ, List.get?_cons_succ, hget k',
              show i + 1 + k' = i + (k' + 1) by omega]

/-- The first loop succeeds when every per-message step does. -/
theorem rebuildPhase1_isSome :
    ∀ (msgs : List Message) (rm : List (Nat × Nat)) (i : Nat),
      (∀ k m, msgs.get? k = some m → ∃ m', rebuildMsg (i + k) rm m = some m') →
      ∃ res, rebuildPhase1 rm i msgs = some res
  | [], _, _, _ => ⟨[], rfl⟩
  | m :: rest, rm, i, h => by
    obtain ⟨m', hm'⟩ := h 0 m rfl
    rw [Nat.add_zero] at hm'
    obtain ⟨res', hres'⟩ := rebuildPhase1_isSome rest rm (i + 1)
      (fun k mm hk => by
        have := h (k + 1) mm (by simpa using hk)
        rwa [show i + (k + 1) = i + 1 + k by omega] at this)
    exact ⟨m' :: res', by unfold rebuildPhase1; rw [hm', hres']; rfl⟩

/-- The inner extraction loop finds nothing in an image-free item
list. -/
theorem extractItems_nil (i : Nat) :
    ∀ (items : List CItem) (j : Nat),
      (∀ it ∈ items, isImageItem it = false) →
      extractItems i j items = []
  | [], _, _ => rfl
  | x :: items, j, h => by
    have hx := h x (List.mem_cons_self x items)
    simp only [extractItems, hx]
    exact extractItems_nil i items (j + 1)
      (fun it hit => h it (List.mem_cons_of_mem x hit))

/-- The outer extraction loop finds nothing when every list-typed content
is image-free. -/
theorem extractGo_nil :
    ∀ (msgs : List Message) (i : Nat),
      (∀ m ∈ msgs, ∀ items, m.content = some (.list items) →
        ∀ it ∈ items, isImageItem it = false) →
      extractGo i msgs = []
  | [], _, _ => rfl
  | m :: rest, i, h => by
    have hrec := extractGo_nil rest (i + 1)
      (fun m' hm' => h m' (List.mem_cons_of_mem m hm'))
    simp only [extractGo, hrec, List.append_nil]
    cases hc : m.content with
    | none => rfl
    | some c =>
      cases c with
      | str s => rfl
      | blob n => rfl
      | list items =>
        exact extractItems_nil i items 0 (h m (List.mem_cons_self m rest) items hc)

/-- Applying `appendOcr` with empty OCR text is the identity. -/
theorem appendOcr_empty (msgs : List Message) : appendOcr "" msgs = msgs := by
  simp [appendOcr]

/-- C1 (counterexample): quantified over *every* message list, the
round-trip property fails: on a message whose list content holds a single
non-dict element, `extract_images` finds nothing and `rebuild_messages`
with the extracted (empty) coordinate set and empty OCR text raises
instead of producing any message list. -/
theorem extract_rebuild_roundtrip_fails_on_nondict :
    rebuild_messages [⟨some "user", some (.list [.nondict "x"]), []⟩]
      (extract_images [⟨some "user", some (.list [.nondict "x"]), []⟩]) ""
      = none := by decide

/-- C1 (amended): for every message list whose list-typed contents hold
only dict items, `rebuild_messages` applied to the output of
`extract_images` with empty OCR text succeeds; per message, the filtering
pass removes exactly the image items and nothing else (the filtered item
sequence is literally `items.filter (not image)`, then shape-normalized),
messages without list-typed content are returned unchanged, and
`extract_images` on the rebuilt list is empty. -/
theorem extract_rebuild_roundtrip (msgs : List Message)
    (hwf : wellFormed msgs = true) :
    ∃ res, rebuild_messages msgs (extract_images msgs) "" = some res ∧
      res.length = msgs.length ∧
      (∀ i m items, msgs.get? i = some m → m.content = some (.list items) →
        filterContent i (coordsOf (extract_images msgs)) 0 items
          = items.filter (fun it => !isImageItem it) ∧
        ∃ c, normalizeContent (items.filter (fun it => !isImageItem it)) = some c ∧
          res.get? i = some { m with content := some c }) ∧
      (∀ i m, msgs.get? i = some m → (∀ items, m.content ≠ some (.list items)) →
        res.get? i = some m) ∧
      extract_images res = [] := by
  have hwf' : ∀ m ∈ msgs, (match m.content with
      | some (.list items) => items.all itemIsDict
      | _ => true) = true := by
    rw [wellFormed, List.all_eq_true] at hwf
    exact hwf
  have hstep : ∀ i m, msgs.get? i = some m →
      ∃ m', rebuildMsg i (coordsOf (extract_images msgs)) m = some m' ∧
        ((∀ items, m.content ≠ some (.list items)) → m' = m) ∧
        (∀ items, m.content = some (.list items) →
          filterContent i (coordsOf (extract_images msgs)) 0 items
            = items.filter (fun it => !isImageItem it) ∧
          ∃ c, normalizeContent (items.filter (fun it => !isImageItem it)) = some c ∧
            m' = { m with content := some c }) := by
    intro i m hm
    cases hc : m.content with
    | none =>
      exact ⟨m, by simp [rebuildMsg, hc], fun _ => rfl,
             fun items h => absurd h (by simp)⟩
    | some c =>
      cases c with
      | str s =>
        exact ⟨m, by simp [rebuildMsg, hc], fun _ => rfl,
               fun items h => absurd h (by simp)⟩
      | blob n =>
        exact ⟨m, by simp [rebuildMsg, hc], fun _ => rfl,
               fun items h => absurd h (by simp)⟩
      | list items =>
        have hfil : filterContent i (coordsOf (extract_images msgs)) 0 items
            = items.filter (fun it => !isImageItem it) :=
          filterContent_eq_filter i _ items 0
            (fun k it hk => by simpa using extract_coords_iff hm hc k it hk)
        have hdict : ∀ it ∈ items.filter (fun it => !isImageItem it),
            itemIsDict it = true := by
          intro it hit
          have hin := (List.mem_filter.1 hit).1
          have := hwf' m (List.get?_mem hm)
          rw [hc] at this
          exact (List.all_eq_true.1 this) it hin
        obtain ⟨c, hcnorm⟩ := normalizeContent_isSome _ hdict
        refine ⟨{ m with content := some c }, ?_,
                fun h => absurd rfl (h items), fun items' h => ?_⟩
        · have hr : rebuildMsg i (coordsOf (extract_images msgs)) m
              = (normalizeContent
                  (filterContent i (coordsOf (extract_images msgs)) 0 items)).map
                  (fun c => { m with content := some c }) := by
            simp only [rebuildMsg, hc]
          rw [hr, hfil, hcnorm]
          rfl
        · injection h with h
          injection h with h
          subst h
          exact ⟨hfil, c, hcnorm, rfl⟩
  obtain ⟨res, hres⟩ := rebuildPhase1_isSome msgs (coordsOf (extract_images msgs)) 0
    (fun k m hk => by
      obtain ⟨m', h', _⟩ := hstep k m hk
      exact ⟨m', by simpa using h'⟩)
  obtain ⟨hlen, hget⟩ := rebuildPhase1_get msgs res _ 0 hres
  have hrebuild : rebuild_messages msgs (extract_images msgs) "" = some res := by
    unfold rebuild_messages
    rw [hres, Option.map_some', appendOcr_empty]
  have hgetm : ∀ i m, msgs.get? i = some m →
      res.get? i = rebuildMsg i (coordsOf (extract_images msgs)) m := by
    intro i m hm
    rw [hget i, hm, Option.some_bind]
    simp
  refine ⟨res, hrebuild, hlen, ?_, ?_, ?_⟩
  · intro i m items hm hc
    obtain ⟨m', hm', _, hlist⟩ := hstep i m hm
    obtain ⟨hfil, c, hcnorm, rfl⟩ := hlist items hc
    exact ⟨hfil, c, hcnorm, by rw [hgetm i m hm, hm']⟩
  · intro i m hm hnl
    obtain ⟨m', hm', hid, _⟩ := hstep i m hm
    rw [hgetm i m hm, hm', hid hnl]
  · apply extractGo_nil res 0
    intro m' hmem items' hc' it hit
    obtain ⟨k, hk⟩ := List.mem_iff_get?.1 hmem
    have hmsg : ∃ m, msgs.get? k = some m := by
      cases hmk : msgs.get? k with
      | none =>
        rw [hget k, hmk, Option.none_bind] at hk
        exact absurd hk (by simp)
      | some m => exact ⟨m, rfl⟩
    obtain ⟨m, hm⟩ := hmsg
    obtain ⟨m'', hm'', hid, hlist⟩ := hstep k m hm
    have : some m'' = some m' := by rw [← hm'', ← hgetm k m hm, hk]
    injection this with this
    subst this
    cases hc : m.content with
    | none =>
      rw [hid (fun items => by rw [hc]; simp)] at hc'
      rw [hc] at hc'
      exact absurd hc' (by simp)
    | some cc =>
      cases cc with
      | str s =>
        rw [hid (fun items => by rw [hc]; simp)] at hc'
        rw [hc] at hc'
        exact absurd hc' (by simp)
      | blob n =>
        rw [hid (fun items => by rw [hc]; simp)] at hc'
        rw [hc] at hc'
        exact absurd hc' (by simp)
      | list items =>
        obtain ⟨hfil, c, hcnorm, rfl⟩ := hlist items hc
        have hcontent : ({ m with content := some c } : Message).content
            = some (.list items') := hc'
        simp only at hcontent
        injection hcontent with hcontent
        subst hcontent
        have hni : ∀ it ∈ items.filter (fun it => !isImageItem it),
            isImageItem it = false := by
          intro it2 hit2
          have := (List.mem_filter.1 hit2).2
          simpa using this
        exact normalizeContent_no_images _ _ hcnorm hni items' rfl it hit

/-- C1 witness: the amended round-trip applied to a concrete well-formed
two-message list holding one text item and one image item. -/
theorem extract_rebuild_roundtrip_witness :
    wellFormed msgsW = true ∧
    (∃ res, rebuild_messages msgsW (extract_images msgsW) "" = some res ∧
      res.length = msgsW.length ∧
      (∀ i m items, msgsW.get? i = some m → m.content = some (.list items) →
        filterContent i (coordsOf (extract_images msgsW)) 0 items
          = items.filter (fun it => !isImageItem it) ∧
        ∃ c, normalizeContent (items.filter (fun it => !isImageItem it)) = some c ∧
          res.get? i = some { m with content := some c }) ∧
      (∀ i m, msgsW.get? i = some m → (∀ items, m.content ≠ some (.list items)) →
        res.get? i = some m) ∧
      extract_images res = []) :=
  ⟨by decide, extract_rebuild_roundtrip msgsW (by decide)⟩

/-- Every `OCRError` raised by `call_ocr` carries the `image_index` it
was called with. -/
theorem call_ocr_ocrError_index (o : HttpOutcome) (i : Nat) (e : OCRErrorE)
    (h : call_ocr o i = .ocrError e) : e.image_index = i := by
  match o with
  | .timeout => simp only [call_ocr] at h; cases h; rfl
  | .transportError m => simp only [call_ocr] at h; cases h; rfl
  | .response st text body =>
    by_cases hst : st = 200
    · subst hst
      simp only [call_ocr, if_neg (by omega : ¬(200 : Nat) ≠ 200)] at h
      cases hex : extractContent body with
      | ok v => rw [hex] at h; exact absurd h (by simp)
      | error p =>
        rw [hex] at h
        cases p <;> simp_all <;> (cases h; rfl)
    · simp only [call_ocr, if_pos hst] at h; cases h; rfl

/-- The settled entry of task `k`. -/
theorem settleTasks_get? (env : Nat → HttpOutcome) (n k : Nat) :
    (settleTasks env n).get? k
      = if k < n then some (toSettled (call_ocr (env k) (k + 1))) else none := by
  unfold settleTasks
  rw [List.get?_map]
  by_cases hk : k < n
  · rw [if_pos hk, List.get?_range hk]
    rfl
  · rw [if_neg hk, List.get?_eq_none.2 (by rw [List.length_range]; omega)]
    rfl

/-- Reading the slots back in task order after every task has settled
(whatever the completion order was) recovers the task-ordered results. -/
theorem gatherResults_of_perm (l : List Settled) (events : List (Nat × Settled))
    (hperm : events.Perm l.enum) :
    gatherResults l.length events = l := by
  apply List.ext
  intro k
  unfold gatherResults
  rw [List.get?_map]
  by_cases hk : k < l.length
  · rw [List.get?_range hk]
    obtain ⟨s, hs⟩ : ∃ s, l.get? k = some s := by
      cases h : l.get? k with
      | none => rw [List.get?_eq_none] at h; omega
      | some s => exact ⟨s, rfl⟩
    have hmem : (k, s) ∈ events :=
      hperm.mem_iff.2 (List.mk_mem_enum_iff_get?.2 hs)
    have huniq : ∀ p ∈ events, p.1 = k → p.2 = s := by
      rintro ⟨a, b⟩ hp hpk
      have hpe := List.mem_enum_iff_get?.1 (hperm.mem_iff.1 hp)
      simp only at hpe hpk
      subst hpk
      rw [hs] at hpe
      injection hpe with hpe
      exact hpe.symm
    cases hfind : events.find? (fun p => p.1 == k) with
    | none =>
      rw [List.find?_eq_none] at hfind
      have hcontra := hfind (k, s) hmem
      simp at hcontra
    | some p =>
      have hpk : p.1 = k := by simpa using List.find?_some hfind
      have hps := huniq p (List.mem_of_find?_eq_some hfind) hpk
      rw [hs]
      simp only [Option.map_some', hfind, Option.getD_some]
      rw [hps]
  · rw [List.get?_eq_none.2 (by rw [List.length_range]; omega),
        List.get?_eq_none.2 (by omega)]
    rfl

/-- Scanning settled results in task order raises the error of the first
failed entry, wrapped with its 1-based ordinal. -/
theorem collectResults_first_failure :
    ∀ (settled : List Settled) (idx k : Nat) (s : Settled),
      settled.get? k = some s → settledFails s = true →
      (∀ j s', j < k → settled.get? j = some s' → settledFails s' = false) →
      collectResults idx settled = .error (settleError (idx + k) s)
  | [], _, k, s, hk, _, _ => by simp at hk
  | x :: rest, idx, k, s, hk, hfail, hbefore => by
    cases k with
    | zero =>
      rw [List.get?_cons_zero] at hk
      injection hk with hk
      subst hk
      cases x with
      | value v => simp [settledFails] at hfail
      | exc e => simp [collectResults, settleError]
      | excOther p => simp [collectResults, settleError]
    | succ k' =>
      rw [List.get?_cons_succ] at hk
      have hx : settledFails x = false := hbefore 0 x (Nat.succ_pos k') rfl
      cases x with
      | value v =>
        have hrec := collectResults_first_failure rest (idx + 1) k' s hk hfail
          (fun j s' hj hjs => hbefore (j + 1) s' (by omega) (by simpa using hjs))
        simp only [collectResults]
        rw [hrec, show idx + 1 + k' = idx + (k' + 1) by omega]
        rfl
      | exc e => simp [settledFails] at hx
      | excOther p => simp [settledFails] at hx

/-- C4: in concurrent mode, whatever order the OCR tasks complete in
(any completion log that is a permutation of the per-task settled
results), `process_images` reads the settled results back in task order
and raises the failure of the lowest failed ordinal: if the entry at
0-based position `k` is the first failed one, the raised `OCRError` is
that entry's error and carries ordinal `k + 1`, regardless of the
completion order encoded in `events`. -/
theorem process_images_parallel_first_failure
    (env : Nat → HttpOutcome) (images : List (Nat × Nat × CItem))
    (events : List (Nat × Settled)) (k : Nat) (s : Settled)
    (hperm : events.Perm ((settleTasks env images.length).enum))
    (hk : (settleTasks env images.length).get? k = some s)
    (hfail : settledFails s = true)
    (hbefore : ∀ j s', j < k → (settleTasks env images.length).get? j = some s' →
        settledFails s' = false) :
    process_images_parallel images (gatherResults images.length events)
      = .error (settleError k s)
    ∧ (settleError k s).image_index = k + 1 := by
  have hlen : (settleTasks env images.length).length = images.length := by
    unfold settleTasks
    rw [List.length_map, List.length_range]
  have hne : images.isEmpty = false := by
    cases himg : images with
    | nil =>
      rw [himg] at hk
      simp [settleTasks] at hk
    | cons a l => rfl
  have hg : gatherResults images.length events = settleTasks env images.length := by
    have := gatherResults_of_perm (settleTasks env images.length) events hperm
    rwa [hlen] at this
  have hcol := collectResults_first_failure
    (settleTasks env images.length) 0 k s hk hfail hbefore
  rw [Nat.zero_add] at hcol
  refine ⟨?_, ?_⟩
  · unfold process_images_parallel
    rw [hne]
    simp only [Bool.false_eq_true, if_false]
    rw [hg, hcol]
  · rw [settleTasks_get? env images.length k] at hk
    by_cases hklt : k < images.length
    · rw [if_pos hklt] at hk
      injection hk with hk
      cases hcall : call_ocr (env k) (k + 1) with
      | ok v =>
        rw [hcall] at hk
        subst hk
        simp [toSettled, settledFails] at hfail
      | ocrError e =>
        rw [hcall] at hk
        subst hk
        exact call_ocr_ocrError_index (env k) (k + 1) e hcall
      | otherError p =>
        rw [hcall] at hk
        subst hk
        rfl
    · rw [if_neg hklt] at hk
      exact absurd hk (by simp)

/-- C4 witness: three images where calls 1 and 3 fail (status 500 and a
timeout) and call 2 succeeds; the completion log is the task results in
*reversed* order, yet the raised failure is the one with ordinal 1 (the
status-500 error of image 1), never the ordinal-3 timeout. -/
theorem process_images_parallel_first_failure_witness :
    process_images_parallel imgs3
      (gatherResults 3 ((settleTasks env3 3).enum.reverse))
      = .error ⟨"OCR API returned status 500: boom", 1⟩
    ∧ (⟨"OCR API returned status 500: boom", 1⟩ : OCRErrorE).image_index = 1 := by
  have h := process_images_parallel_first_failure env3 imgs3
    ((settleTasks env3 imgs3.length).enum.reverse) 0
    (Settled.exc ⟨"OCR API returned status 500: boom", 1⟩)
    (List.reverse_perm _) (by decide) (by decide)
    (fun j s' hj _ => absurd hj (Nat.not_lt_zero j))
  exact ⟨h.1, h.2⟩

end VisionProxy
